import Mathlib

/-!
# Verification of the loreyawen frame engine

Shallow embedding of the loreyawen "proprietary" LoRaWAN frame codec:
the MIC engine (`src/crypto/mic.rs`, `src/crypto/aescmac.rs`), the CTR
stream engine (`src/crypto/stream.rs`, `src/crypto/aesctr.rs`), the raw
frame codec (`src/frame/raw.rs`), and the seal/open pipelines
(`src/frame/sealed.rs`, `src/frame/plaintext.rs`).

Bytes are modelled as `Nat` (values `< 256` where it matters), byte
buffers as `List Nat`.  The external AES-128 block cipher and the
external AES-CMAC implementation (both consumed by the library as
capabilities from the `aes`/`cmac`/`ctr` crates) are abstract function
parameters `aes`/`cmac : List Nat → List Nat → List Nat` (key, input →
output).  Fallible Rust code (panics, `Option`) is modelled with
`Option`.  The mutable session is threaded explicitly: `seal` and
`openFrame` return the resulting session next to the optional output.

The embedding follows the 8-byte-header iteration of the source
(`raw.rs`/`mic.rs`/`stream.rs`/`sealed.rs`/`plaintext.rs`), which is the
one wired into `lib.rs`; `AesCmacBuilder.compute` additionally embeds
the parallel iteration in `aescmac.rs` (whose MIC size under default
features is `RawFrame::MIC_SIZE = 4` from `rawframe.rs`).
-/

namespace Loreyawen

/-- `u32::to_le_bytes` restricted to the low two bytes, i.e. `u16::to_le_bytes`. -/
def toLe2 (n : Nat) : List Nat :=
  [n % 256, n / 256 % 256]

/-- `u32::to_le_bytes`. -/
def toLe4 (n : Nat) : List Nat :=
  [n % 256, n / 256 % 256, n / 65536 % 256, n / 16777216 % 256]

/-- `u16::from_le_bytes` / `u32::from_le_bytes`, generalized to any byte list. -/
def fromLe (bytes : List Nat) : Nat :=
  bytes.foldr (fun b acc => b + 256 * acc) 0

/-- A 128-bit value rendered as 16 big-endian bytes (the CTR counter block). -/
def beBytes16 (n : Nat) : List Nat :=
  [n / 256 ^ 15 % 256, n / 256 ^ 14 % 256, n / 256 ^ 13 % 256, n / 256 ^ 12 % 256,
   n / 256 ^ 11 % 256, n / 256 ^ 10 % 256, n / 256 ^ 9 % 256, n / 256 ^ 8 % 256,
   n / 256 ^ 7 % 256, n / 256 ^ 6 % 256, n / 256 ^ 5 % 256, n / 256 ^ 4 % 256,
   n / 256 ^ 3 % 256, n / 256 ^ 2 % 256, n / 256 % 256, n % 256]

/-- 16 big-endian bytes read as a 128-bit value. -/
def beNat (bytes : List Nat) : Nat :=
  bytes.foldl (fun acc b => acc * 256 + b) 0

/-- `Direction` from `src/lib.rs`: a two-valued tag with `#[repr(u8)]`. -/
inductive Direction where
  | Uplink
  | Downlink
deriving DecidableEq, Repr

/-- The `direction as u8` octet: `Uplink = 0`, `Downlink = 1`. -/
def Direction.toByte : Direction → Nat
  | .Uplink => 0
  | .Downlink => 1

/-- The `SessionState` capability from `src/lib.rs`, concretised as a record:
two 128-bit keys, the device address and one frame counter per direction. -/
structure Session where
  nwkskey : List Nat
  appskey : List Nat
  deviceAddress : Nat
  fcntUp : Nat
  fcntDown : Nat
deriving DecidableEq, Repr

/-- `SessionState::frame_counter(direction)`. -/
def Session.frameCounter (s : Session) : Direction → Nat
  | .Uplink => s.fcntUp
  | .Downlink => s.fcntDown

/-- `SessionState::set_frame_counter(counter, direction)`. -/
def Session.setFrameCounter (s : Session) (counter : Nat) : Direction → Session
  | .Uplink => { s with fcntUp := counter }
  | .Downlink => { s with fcntDown := counter }

/-- `PlaintextBuilderWithFrame::RESERVED_FRAME_COUNTER = u32::MAX`. -/
def RESERVED_FRAME_COUNTER : Nat := 4294967295

/-- `MAX_MESSAGE_SIZE` from `src/frame/mod.rs`. -/
def MAX_MESSAGE_SIZE : Nat := 255

/-- `RawFrame::HEADER_SIZE` from `src/frame/raw.rs`. -/
def HEADER_SIZE : Nat := 8

/-- `RawFrame::MIC_SIZE` from `src/frame/raw.rs`. -/
def MIC_SIZE : Nat := 8

/-- `MAX_PAYLOAD_SIZE = MAX_MESSAGE_SIZE - HEADER_SIZE - MIC_SIZE` (= 239). -/
def MAX_PAYLOAD_SIZE : Nat := MAX_MESSAGE_SIZE - HEADER_SIZE - MIC_SIZE

/-- `RawFrame::MHDR = 0b111_000_00`. -/
def MHDR : Nat := 0xE0

/-- `RawFrame::FPORT = 0x01`. -/
def FPORT : Nat := 0x01

/-- `RawFrame` from `src/frame/raw.rs`.  The fixed-capacity payload buffer
plus its length is modelled as the byte list `payload[..payload_len]`. -/
structure RawFrame where
  header : List Nat
  payload : List Nat
  mic : List Nat
deriving DecidableEq, Repr

/-- `RawFrame::new`: fixed constants, zero MIC, copied payload.  The Rust
code panics when the payload exceeds `MAX_PAYLOAD_SIZE`. -/
def RawFrame.new (payload : List Nat) : Option RawFrame :=
  if payload.length ≤ MAX_PAYLOAD_SIZE then
    some { header := [MHDR, 0, 0, 0, 0, 0, 0, FPORT],
           payload := payload,
           mic := List.replicate MIC_SIZE 0 }
  else
    none

/-- The header validation inside `RawFrame::parse`: the Rust code pattern
matches the 8-byte chunk against `[MHDR, _, _, _, _, _, _, FPORT]`. -/
def RawFrame.checkHeader (header : List Nat) : Bool :=
  header.getD 0 0 == MHDR && header.getD 7 0 == FPORT

/-- `RawFrame::parse`: split off an 8-byte header and an 8-byte MIC
(checked subtraction fails on short inputs), validate the fixed header
bytes, and bound the payload by the buffer capacity. -/
def RawFrame.parse (frame : List Nat) : Option RawFrame :=
  if HEADER_SIZE + MIC_SIZE ≤ frame.length then
    let payloadLen := frame.length - HEADER_SIZE - MIC_SIZE
    let header := frame.take HEADER_SIZE
    let payload := (frame.drop HEADER_SIZE).take payloadLen
    let mic := (frame.drop HEADER_SIZE).drop payloadLen
    if RawFrame.checkHeader header then
      if payloadLen ≤ MAX_PAYLOAD_SIZE then
        some { header := header, payload := payload, mic := mic }
      else none
    else none
  else none

/-- `RawFrame::into_frame`: serialize as `header || payload || mic`. -/
def RawFrame.intoFrame (r : RawFrame) : List Nat :=
  r.header ++ r.payload ++ r.mic

/-- `RawFrame::address`: little-endian decode of header bytes 1..=4. -/
def RawFrame.address (r : RawFrame) : Nat :=
  match r.header with
  | [_, a0, a1, a2, a3, _, _, _] => fromLe [a0, a1, a2, a3]
  | _ => 0

/-- `RawFrame::set_address`: rewrite header bytes 1..=4. -/
def RawFrame.setAddress (r : RawFrame) (address : Nat) : RawFrame :=
  match r.header with
  | [mhdr, _, _, _, _, f0, f1, fport] =>
    { r with header := mhdr :: (toLe4 address ++ [f0, f1, fport]) }
  | _ => r

/-- `RawFrame::frame_counter_lsbs`: little-endian decode of header bytes 5..=6. -/
def RawFrame.frameCounterLsbs (r : RawFrame) : Nat :=
  match r.header with
  | [_, _, _, _, _, f0, f1, _] => fromLe [f0, f1]
  | _ => 0

/-- `RawFrame::set_frame_counter_lsbs`: rewrite header bytes 5..=6. -/
def RawFrame.setFrameCounterLsbs (r : RawFrame) (lsbs : Nat) : RawFrame :=
  match r.header with
  | [mhdr, a0, a1, a2, a3, _, _, fport] =>
    { r with header := [mhdr, a0, a1, a2, a3] ++ toLe2 lsbs ++ [fport] }
  | _ => r

/-- The implicit `block0` of the MIC engine (`MicBuilderWithFrameCounter::block0`
in `src/crypto/mic.rs`; byte for byte identical to `AesCmacBuilder::block0` in
`src/crypto/aescmac.rs`). -/
def micBlock0 (direction : Direction) (address frameCounter messageLen : Nat) : List Nat :=
  [0x49, 0x00, 0x00, 0x00, 0x00, direction.toByte]
    ++ toLe4 address ++ toLe4 frameCounter ++ [0x00, messageLen]

/-- The CMAC input assembled by `MicBuilderWithFrameCounter::cmac`:
`block0 || header || payload` streamed into the external `Cmac` state. -/
def micMessage (direction : Direction) (address frameCounter : Nat)
    (header payload : List Nat) : List Nat :=
  micBlock0 direction address frameCounter (header.length + payload.length)
    ++ header ++ payload

/-- `MicBuilderWithFrameCounter::compute` (`src/crypto/mic.rs`): the first
`8` bytes of the 16-byte CMAC output.  The Rust code panics (`u8::try_from
... expect`) when `header.len() + payload.len() > 255`. -/
def MicBuilder.compute (cmac : List Nat → List Nat → List Nat) (nwkskey : List Nat)
    (direction : Direction) (address frameCounter : Nat)
    (header payload : List Nat) : Option (List Nat) :=
  if header.length + payload.length ≤ 255 then
    some ((cmac nwkskey (micMessage direction address frameCounter header payload)).take 8)
  else none

/-- `MicBuilderWithFrameCounter::verify` (`src/crypto/mic.rs`): reject
over-long messages, else compare the truncated tag against the expected MIC
(`verify_truncated_left`). -/
def MicBuilder.verify (cmac : List Nat → List Nat → List Nat) (nwkskey : List Nat)
    (direction : Direction) (address frameCounter : Nat)
    (header payload expectedMic : List Nat) : Bool :=
  if header.length + payload.length ≤ 255 then
    (cmac nwkskey (micMessage direction address frameCounter header payload)).take 8
      == expectedMic
  else false

/-- `AesCmacBuilder::compute` (`src/crypto/aescmac.rs`): identical CMAC input,
truncated to `RawFrame::MIC_SIZE` from `src/frame/rawframe.rs`, which is `4`
without the "extended-mic" feature. -/
def AesCmacBuilder.compute (cmac : List Nat → List Nat → List Nat) (nwkskey : List Nat)
    (direction : Direction) (address frameCounter : Nat)
    (header payload : List Nat) : Option (List Nat) :=
  if header.length + payload.length ≤ 255 then
    some ((cmac nwkskey (micMessage direction address frameCounter header payload)).take 4)
  else none

/-- The CTR counter-block-0 IV (`CipherstreamBuilderWithFrameCounter::block0`
in `src/crypto/stream.rs`; identical to `AesCtrBuilder::block0`). -/
def ctrBlock0 (direction : Direction) (address frameCounter : Nat) : List Nat :=
  [0x01, 0x00, 0x00, 0x00, 0x00, direction.toByte]
    ++ toLe4 address ++ toLe4 frameCounter ++ [0x00, 0x01]

/-- The keystream of the external `Ctr128BE` cipher: AES encryptions of the
big-endian 128-bit counter `counter, counter + 1, ...` (mod `2 ^ 128`). -/
def ctrKeystream (aes : List Nat → List Nat → List Nat) (key : List Nat)
    (counter : Nat) : Nat → List Nat
  | 0 => []
  | n + 1 => aes key (beBytes16 (counter % 2 ^ 128)) ++ ctrKeystream aes key (counter + 1) n

/-- `CipherstreamBuilderWithFrameCounter::apply` (`src/crypto/stream.rs`):
assert the 255-block bound, then XOR the `Ctr128BE` keystream, whose IV is
`ctrBlock0`, into the data.  The assertion failure is modelled as `none`. -/
def CipherstreamBuilder.apply (aes : List Nat → List Nat → List Nat) (appskey : List Nat)
    (direction : Direction) (address frameCounter : Nat)
    (data : List Nat) : Option (List Nat) :=
  if data.length ≤ 255 * 16 then
    some (List.zipWith Nat.xor data
      (ctrKeystream aes appskey (beNat (ctrBlock0 direction address frameCounter))
        ((data.length + 15) / 16)))
  else none

/-- `u32::checked_add(1)` followed by `expect`: fails exactly on `u32::MAX`. -/
def checkedAddOne (n : Nat) : Option Nat :=
  if n < RESERVED_FRAME_COUNTER then some (n + 1) else none

/-- `u32::saturating_add` at width 32. -/
def saturatingAdd (a b : Nat) : Nat :=
  min (a + b) RESERVED_FRAME_COUNTER

/-- `FrameBuilder::recover_frame_counter` (`src/frame/plaintext.rs`, identical
in `src/frame/builderopen.rs`): graft the wire LSBs onto the expected next
counter's high half and bump one epoch (saturating) when the candidate fell
behind. -/
def recoverFrameCounter (frameCounterLsbs nextFrameCounter : Nat) : Nat :=
  let recovered := (nextFrameCounter &&& 0xFFFF0000) ||| frameCounterLsbs
  if nextFrameCounter ≤ recovered then recovered
  else saturatingAdd recovered 0x10000

/-- `FrameBuilderWithDirection::set_payload` (`src/frame/sealed.rs`): assemble
the raw frame from the session, encrypt the payload in place, compute and
store the MIC, advance the frame counter (`checked_add` panics on an exhausted
counter), and serialize.  The session is returned next to the result; every
failure (panic) leaves it untouched because `set_frame_counter` is only
reached on the success path. -/
def sealFrame (aes cmac : List Nat → List Nat → List Nat) (session : Session)
    (direction : Direction) (payload : List Nat) : Option (List Nat) × Session :=
  let address := session.deviceAddress
  let nextFrameCounter := session.frameCounter direction
  match RawFrame.new payload with
  | none => (none, session)
  | some raw =>
    let raw := (raw.setAddress address).setFrameCounterLsbs (nextFrameCounter % 65536)
    match CipherstreamBuilder.apply aes session.appskey direction address nextFrameCounter
        raw.payload with
    | none => (none, session)
    | some encrypted =>
      let raw := { raw with payload := encrypted }
      match MicBuilder.compute cmac session.nwkskey direction address nextFrameCounter
          raw.header raw.payload with
      | none => (none, session)
      | some mic =>
        let raw := { raw with mic := mic }
        match checkedAddOne nextFrameCounter with
        | none => (none, session)
        | some counter => (some raw.intoFrame, session.setFrameCounter counter direction)

/-- `PlaintextBuilderWithDirection::set_frame` followed by
`PlaintextBuilderWithFrame::unpack` (`src/frame/plaintext.rs`): parse, match
the address, recover the full frame counter and reject the reserved value,
verify the MIC, decrypt, and only then commit `recovered + 1` (saturating) to
the session. -/
def openFrame (aes cmac : List Nat → List Nat → List Nat) (session : Session)
    (direction : Direction) (frame : List Nat) : Option (List Nat) × Session :=
  match RawFrame.parse frame with
  | none => (none, session)
  | some raw =>
    if raw.address = session.deviceAddress then
      let nextFrameCounter := session.frameCounter direction
      let frameCounter := recoverFrameCounter raw.frameCounterLsbs nextFrameCounter
      if frameCounter = RESERVED_FRAME_COUNTER then (none, session)
      else
        if MicBuilder.verify cmac session.nwkskey direction raw.address frameCounter
            raw.header raw.payload raw.mic then
          match CipherstreamBuilder.apply aes session.appskey direction raw.address
              frameCounter raw.payload with
          | none => (none, session)
          | some plaintext =>
            (some plaintext, session.setFrameCounter (saturatingAdd frameCounter 1) direction)
        else (none, session)
    else (none, session)

/-- Abbreviation for the frame pieces `set_payload` assembles: the header after
`set_address` and `set_frame_counter_lsbs`. -/
def sealedHeader (address frameCounter : Nat) : List Nat :=
  MHDR :: (toLe4 address ++ (toLe2 (frameCounter % 65536) ++ [FPORT]))

/-- The encrypted payload produced by `CipherstreamBuilder::apply` during seal. -/
def sealedCiphertext (aes : List Nat → List Nat → List Nat) (appskey : List Nat)
    (direction : Direction) (address frameCounter : Nat) (payload : List Nat) : List Nat :=
  List.zipWith Nat.xor payload
    (ctrKeystream aes appskey (beNat (ctrBlock0 direction address frameCounter))
      ((payload.length + 15) / 16))

/-- The MIC stored by `set_payload`. -/
def sealedMic (cmac : List Nat → List Nat → List Nat) (nwkskey : List Nat)
    (direction : Direction) (address frameCounter : Nat)
    (header ciphertext : List Nat) : List Nat :=
  (cmac nwkskey (micMessage direction address frameCounter header ciphertext)).take 8

/-- Toy AES-128 instantiation (identity on the block) for concrete witnesses. -/
def tAes (_key block : List Nat) : List Nat := block

/-- Toy CMAC instantiation for concrete witnesses: a 16-byte window of the
message that contains the frame-counter bytes of `block0`. -/
def tCmac (_key msg : List Nat) : List Nat :=
  (msg.drop 8 ++ List.replicate 16 0).take 16

/-- An all-zero 128-bit key for concrete witnesses. -/
def zeroKey : List Nat := List.replicate 16 0

/-- A concrete session for witnesses, with a chosen uplink frame counter. -/
def testSession (fcnt : Nat) : Session :=
  { nwkskey := zeroKey, appskey := zeroKey, deviceAddress := 0,
    fcntUp := fcnt, fcntDown := 0 }

/-! ## Arithmetic helpers -/

theorem fromLe_toLe2 (n : Nat) : fromLe (toLe2 n) = n % 65536 := by
  simp [fromLe, toLe2]
  omega

theorem fromLe_toLe4 (n : Nat) : fromLe (toLe4 n) = n % 4294967296 := by
  simp [fromLe, toLe4]
  omega

theorem testBit_two_pow_16_mul (a j : Nat) :
    Nat.testBit (2 ^ 16 * a) j = if j < 16 then false else a.testBit (j - 16) := by
  have h := Nat.testBit_mul_pow_two_add a (show (0 : Nat) < 2 ^ 16 by norm_num) j
  simpa using h

theorem testBit_mask_hi (j : Nat) :
    Nat.testBit 0xFFFF0000 j = decide (16 ≤ j ∧ j < 32) := by
  have h1 : (0xFFFF0000 : Nat) = 2 ^ 16 * (2 ^ 16 - 1) := by norm_num
  rw [h1, testBit_two_pow_16_mul]
  by_cases hj : j < 16
  · simp only [if_pos hj]
    symm
    simp only [decide_eq_false_iff_not]
    omega
  · rw [if_neg hj, Nat.testBit_two_pow_sub_one]
    simp only [decide_eq_decide]
    omega

theorem land_high_mask (n : Nat) (h : n < 4294967296) :
    n &&& 0xFFFF0000 = 2 ^ 16 * (n / 2 ^ 16) := by
  apply Nat.eq_of_testBit_eq
  intro j
  rw [Nat.testBit_land, testBit_mask_hi, testBit_two_pow_16_mul]
  by_cases hj : j < 16
  · simp only [if_pos hj]
    simp
    omega
  · by_cases hj32 : j < 32
    · have hd : decide (16 ≤ j ∧ j < 32) = true := by
        simp only [decide_eq_true_eq]
        omega
      have hr : (n / 2 ^ 16).testBit (j - 16) = n.testBit j := by
        rw [← Nat.shiftRight_eq_div_pow, Nat.testBit_shiftRight,
          show 16 + (j - 16) = j by omega]
      rw [hd, if_neg hj, hr, Bool.and_true]
    · have hd : decide (16 ≤ j ∧ j < 32) = false := by
        simp only [decide_eq_false_iff_not]
        omega
      have hn : n.testBit j = false :=
        Nat.testBit_eq_false_of_lt
          (lt_of_lt_of_le (show n < 2 ^ 32 by omega)
            (Nat.pow_le_pow_right (by norm_num) (by omega)))
      have hr : (n / 2 ^ 16).testBit (j - 16) = false := by
        rw [← Nat.shiftRight_eq_div_pow, Nat.testBit_shiftRight,
          show 16 + (j - 16) = j by omega, hn]
      rw [hd, if_neg hj, hr, Bool.and_false]

theorem lor_two_pow_16_mul_add (q b : Nat) (hb : b < 2 ^ 16) :
    (2 ^ 16 * q) ||| b = 2 ^ 16 * q + b := by
  apply Nat.eq_of_testBit_eq
  intro j
  rw [Nat.testBit_lor, testBit_two_pow_16_mul, Nat.testBit_mul_pow_two_add q hb j]
  by_cases hj : j < 16
  · simp [hj]
  · have hbj : b.testBit j = false :=
      Nat.testBit_eq_false_of_lt
        (lt_of_lt_of_le hb (Nat.pow_le_pow_right (by norm_num) (by omega)))
    simp [hj, hbj]

/-- Characterization of `recover_frame_counter` in plain div/mod arithmetic. -/
theorem recover_eq (lsbs next : Nat) (hl : lsbs < 65536) (hn : next < 4294967296) :
    recoverFrameCounter lsbs next =
      if next ≤ 65536 * (next / 65536) + lsbs then 65536 * (next / 65536) + lsbs
      else min (65536 * (next / 65536) + lsbs + 65536) 4294967295 := by
  unfold recoverFrameCounter saturatingAdd RESERVED_FRAME_COUNTER
  rw [land_high_mask next hn,
    lor_two_pow_16_mul_add (next / 2 ^ 16) lsbs (by norm_num; exact hl)]
  norm_num

theorem recover_self (fc : Nat) (h : fc < 4294967296) :
    recoverFrameCounter (fc % 65536) fc = fc := by
  rw [recover_eq (fc % 65536) fc (by omega) h]
  have := Nat.div_add_mod fc 65536
  rw [if_pos (by omega)]
  omega

theorem recover_ge (lsbs next : Nat) (hl : lsbs < 65536) (hn : next < 4294967296) :
    next ≤ recoverFrameCounter lsbs next := by
  rw [recover_eq lsbs next hl hn]
  have := Nat.div_add_mod next 65536
  have := Nat.mod_lt next (show 0 < 65536 by norm_num)
  split_ifs <;> omega

theorem recover_le_max (lsbs next : Nat) (hl : lsbs < 65536) (hn : next < 4294967296) :
    recoverFrameCounter lsbs next ≤ 4294967295 := by
  rw [recover_eq lsbs next hl hn]
  have := Nat.div_add_mod next 65536
  have h2 : next / 65536 ≤ 65535 := by omega
  split_ifs <;> omega

/-! ## List helpers -/

theorem getD_take_lt (l : List Nat) (n i : Nat) (h : i < n) :
    (l.take n).getD i 0 = l.getD i 0 := by
  simp [List.getD_eq_getElem?_getD, List.getElem?_take, h]

theorem ctrKeystream_length (aes : List Nat → List Nat → List Nat) (key : List Nat)
    (hAes : ∀ k b, b.length = 16 → (aes k b).length = 16) (counter n : Nat) :
    (ctrKeystream aes key counter n).length = 16 * n := by
  induction n generalizing counter with
  | zero => rfl
  | succ m ih =>
    simp only [ctrKeystream, List.length_append, ih (counter + 1),
      hAes key (beBytes16 (counter % 2 ^ 128)) rfl]
    ring

theorem zipWith_xor_cancel (l : List Nat) :
    ∀ s : List Nat, l.length ≤ s.length →
      List.zipWith Nat.xor (List.zipWith Nat.xor l s) s = l := by
  induction l with
  | nil => intro s _; simp
  | cons a l ih =>
    intro s hs
    cases s with
    | nil => simp at hs
    | cons b s =>
      simp only [List.zipWith_cons_cons, List.cons.injEq]
      refine ⟨?_, ih s (by simpa using hs)⟩
      show a ^^^ b ^^^ b = a
      exact Nat.xor_cancel_right b a

theorem parse_intoFrame (header ct mic : List Nat)
    (hh : header.length = 8) (hm : mic.length = 8) (hp : ct.length ≤ 239)
    (hchk : RawFrame.checkHeader header = true) :
    RawFrame.parse (header ++ ct ++ mic) = some ⟨header, ct, mic⟩ := by
  have hlen : (header ++ ct ++ mic).length = 16 + ct.length := by
    simp [hh, hm]
    omega
  have htake : (header ++ ct ++ mic).take 8 = header := by
    rw [List.append_assoc, ← hh, List.take_left]
  have hdrop : (header ++ ct ++ mic).drop 8 = ct ++ mic := by
    rw [List.append_assoc, ← hh, List.drop_left]
  have htake2 : (ct ++ mic).take ct.length = ct := List.take_left ct mic
  have hdrop2 : (ct ++ mic).drop ct.length = mic := List.drop_left ct mic
  unfold RawFrame.parse HEADER_SIZE MIC_SIZE
  rw [if_pos (by omega)]
  simp only [hlen, show 16 + ct.length - 8 - 8 = ct.length by omega,
    htake, hdrop, htake2, hdrop2]
  rw [if_pos hchk,
    if_pos (by unfold MAX_PAYLOAD_SIZE MAX_MESSAGE_SIZE HEADER_SIZE MIC_SIZE; omega)]

/-! ## Pipeline equations -/

theorem sealedHeader_length (address fc : Nat) : (sealedHeader address fc).length = 8 := by
  simp [sealedHeader, toLe4, toLe2]

theorem checkHeader_sealedHeader (address fc : Nat) :
    RawFrame.checkHeader (sealedHeader address fc) = true := by
  simp [RawFrame.checkHeader, sealedHeader, toLe4, toLe2, MHDR, FPORT, List.getD]

theorem sealedCiphertext_le (aes : List Nat → List Nat → List Nat) (appskey : List Nat)
    (d : Direction) (address fc : Nat) (pl : List Nat) :
    (sealedCiphertext aes appskey d address fc pl).length ≤ pl.length := by
  simp [sealedCiphertext, List.length_zipWith]

theorem sealedCiphertext_length (aes : List Nat → List Nat → List Nat) (appskey : List Nat)
    (d : Direction) (address fc : Nat) (pl : List Nat)
    (hAes : ∀ k b, b.length = 16 → (aes k b).length = 16) :
    (sealedCiphertext aes appskey d address fc pl).length = pl.length := by
  simp [sealedCiphertext, List.length_zipWith,
    ctrKeystream_length aes appskey hAes]
  omega

theorem sealedMic_length (cmac : List Nat → List Nat → List Nat) (nwkskey : List Nat)
    (d : Direction) (address fc : Nat) (hdr ct : List Nat)
    (hCmac : ∀ k m, (cmac k m).length = 16) :
    (sealedMic cmac nwkskey d address fc hdr ct).length = 8 := by
  simp [sealedMic, List.length_take, hCmac]

theorem compute_eq_of_le (cmac : List Nat → List Nat → List Nat) (k : List Nat)
    (d : Direction) (a fc : Nat) (hdr ct : List Nat)
    (h : hdr.length + ct.length ≤ 255) :
    MicBuilder.compute cmac k d a fc hdr ct = some (sealedMic cmac k d a fc hdr ct) := by
  simp [MicBuilder.compute, sealedMic, h]

theorem apply_eq_of_le (aes : List Nat → List Nat → List Nat) (k : List Nat)
    (d : Direction) (a fc : Nat) (data : List Nat) (h : data.length ≤ 255 * 16) :
    CipherstreamBuilder.apply aes k d a fc data =
      some (sealedCiphertext aes k d a fc data) := by
  simp [CipherstreamBuilder.apply, sealedCiphertext, h]

theorem checkedAddOne_eq (n : Nat) (h : n < RESERVED_FRAME_COUNTER) :
    checkedAddOne n = some (n + 1) := by
  simp [checkedAddOne, h]

theorem sealFrame_eq (aes cmac : List Nat → List Nat → List Nat) (s : Session)
    (d : Direction) (pl : List Nat)
    (hpl : pl.length ≤ MAX_PAYLOAD_SIZE) (hfc : s.frameCounter d < RESERVED_FRAME_COUNTER) :
    sealFrame aes cmac s d pl =
      (some (sealedHeader s.deviceAddress (s.frameCounter d)
              ++ sealedCiphertext aes s.appskey d s.deviceAddress (s.frameCounter d) pl
              ++ sealedMic cmac s.nwkskey d s.deviceAddress (s.frameCounter d)
                   (sealedHeader s.deviceAddress (s.frameCounter d))
                   (sealedCiphertext aes s.appskey d s.deviceAddress (s.frameCounter d) pl)),
       s.setFrameCounter (s.frameCounter d + 1) d) := by
  have hpl239 : pl.length ≤ 239 := by
    simpa [MAX_PAYLOAD_SIZE, MAX_MESSAGE_SIZE, HEADER_SIZE, MIC_SIZE] using hpl
  have h1 : RawFrame.new pl =
      some ⟨[MHDR, 0, 0, 0, 0, 0, 0, FPORT], pl, List.replicate MIC_SIZE 0⟩ := by
    simp [RawFrame.new, hpl]
  have h2 : RawFrame.setFrameCounterLsbs
      (RawFrame.setAddress ⟨[MHDR, 0, 0, 0, 0, 0, 0, FPORT], pl, List.replicate MIC_SIZE 0⟩
        s.deviceAddress) (s.frameCounter d % 65536) =
      ⟨sealedHeader s.deviceAddress (s.frameCounter d), pl, List.replicate MIC_SIZE 0⟩ := by
    simp [RawFrame.setAddress, RawFrame.setFrameCounterLsbs, sealedHeader, toLe4, toLe2]
  have hct := sealedCiphertext_le aes s.appskey d s.deviceAddress (s.frameCounter d) pl
  have h3 := apply_eq_of_le aes s.appskey d s.deviceAddress (s.frameCounter d) pl
    (by omega)
  have h4 := compute_eq_of_le cmac s.nwkskey d s.deviceAddress (s.frameCounter d)
    (sealedHeader s.deviceAddress (s.frameCounter d))
    (sealedCiphertext aes s.appskey d s.deviceAddress (s.frameCounter d) pl)
    (by rw [sealedHeader_length]; omega)
  have h5 := checkedAddOne_eq (s.frameCounter d) hfc
  simp only [sealFrame, h1, h2, h3, h4, h5, RawFrame.intoFrame]

theorem parse_shape (frame : List Nat) (raw : RawFrame)
    (hp : RawFrame.parse frame = some raw) :
    raw.header = frame.take 8 ∧
    raw.payload = (frame.drop 8).take (frame.length - 16) ∧
    raw.mic = (frame.drop 8).drop (frame.length - 16) ∧
    16 ≤ frame.length ∧ frame.length - 16 ≤ 239 ∧
    RawFrame.checkHeader (frame.take 8) = true := by
  simp only [RawFrame.parse, HEADER_SIZE, MIC_SIZE, MAX_PAYLOAD_SIZE, MAX_MESSAGE_SIZE] at hp
  simp only [show ∀ n : Nat, n - 8 - 8 = n - 16 from fun n => by omega] at hp
  split_ifs at hp with h1 h2 h3
  · cases hp
    exact ⟨rfl, rfl, rfl, by omega, by omega, h2⟩

theorem frameCounterLsbs_lt_of (hdr p m : List Nat) (hlen : hdr.length = 8)
    (hb : ∀ b ∈ hdr, b < 256) :
    (RawFrame.mk hdr p m).frameCounterLsbs < 65536 := by
  rcases hdr with _ | ⟨b0, hdr⟩; · simp at hlen
  rcases hdr with _ | ⟨b1, hdr⟩; · simp at hlen
  rcases hdr with _ | ⟨b2, hdr⟩; · simp at hlen
  rcases hdr with _ | ⟨b3, hdr⟩; · simp at hlen
  rcases hdr with _ | ⟨b4, hdr⟩; · simp at hlen
  rcases hdr with _ | ⟨b5, hdr⟩; · simp at hlen
  rcases hdr with _ | ⟨b6, hdr⟩; · simp at hlen
  rcases hdr with _ | ⟨b7, hdr⟩; · simp at hlen
  rcases hdr with _ | ⟨b8, hdr⟩
  · have h5 : b5 < 256 := hb b5 (by simp)
    have h6 : b6 < 256 := hb b6 (by simp)
    simp only [RawFrame.frameCounterLsbs, fromLe, List.foldr]
    omega
  · simp at hlen

theorem frameCounterLsbs_lt (frame : List Nat) (raw : RawFrame)
    (hp : RawFrame.parse frame = some raw) (hb : ∀ b ∈ frame, b < 256) :
    raw.frameCounterLsbs < 65536 := by
  obtain ⟨hh, -, -, hlen, -, -⟩ := parse_shape frame raw hp
  have hlen8 : raw.header.length = 8 := by
    rw [hh, List.length_take]
    omega
  have hbh : ∀ b ∈ raw.header, b < 256 := by
    intro b hbmem
    exact hb b (List.take_subset 8 frame (hh ▸ hbmem))
  have := frameCounterLsbs_lt_of raw.header raw.payload raw.mic hlen8 hbh
  simpa using this

theorem openFrame_spec (aes cmac : List Nat → List Nat → List Nat) (s : Session)
    (d : Direction) (frame : List Nat) :
    openFrame aes cmac s d frame = (none, s) ∨
    ∃ raw pt,
      RawFrame.parse frame = some raw ∧
      raw.address = s.deviceAddress ∧
      recoverFrameCounter raw.frameCounterLsbs (s.frameCounter d) ≠ RESERVED_FRAME_COUNTER ∧
      MicBuilder.verify cmac s.nwkskey d raw.address
        (recoverFrameCounter raw.frameCounterLsbs (s.frameCounter d))
        raw.header raw.payload raw.mic = true ∧
      CipherstreamBuilder.apply aes s.appskey d raw.address
        (recoverFrameCounter raw.frameCounterLsbs (s.frameCounter d)) raw.payload = some pt ∧
      openFrame aes cmac s d frame =
        (some pt, s.setFrameCounter
          (saturatingAdd (recoverFrameCounter raw.frameCounterLsbs (s.frameCounter d)) 1) d) := by
  rcases hp : RawFrame.parse frame with _ | raw
  · left
    simp [openFrame, hp]
  · by_cases ha : raw.address = s.deviceAddress
    · by_cases hres :
        recoverFrameCounter raw.frameCounterLsbs (s.frameCounter d) = RESERVED_FRAME_COUNTER
      · left
        simp [openFrame, hp, ha, hres]
      · by_cases hmic : MicBuilder.verify cmac s.nwkskey d raw.address
            (recoverFrameCounter raw.frameCounterLsbs (s.frameCounter d))
            raw.header raw.payload raw.mic = true
        · rcases hap : CipherstreamBuilder.apply aes s.appskey d raw.address
              (recoverFrameCounter raw.frameCounterLsbs (s.frameCounter d)) raw.payload
            with _ | pt
          · left
            have hmic2 := hmic
            have hap2 := hap
            rw [ha] at hmic2 hap2
            simp [openFrame, hp, ha, hres, hmic2, hap2]
          · right
            have hmic2 := hmic
            have hap2 := hap
            rw [ha] at hmic2 hap2
            exact ⟨raw, pt, rfl, ha, hres, hmic, hap, by
              simp [openFrame, hp, ha, hres, hmic2, hap2]⟩
        · left
          have hmic2 := hmic
          rw [ha] at hmic2
          simp only [Bool.not_eq_true] at hmic2
          simp [openFrame, hp, ha, hres, hmic2]
    · left
      simp [openFrame, hp, ha]

/-! ## Claim C3: frame-counter recovery -/

/-- C3 counterexample: at `lsbs = 1`, `next = 0xFFFF0005` no 32-bit counter
`≥ next` has low 16 bits equal to `lsbs`; the code saturates to the reserved
value `0xFFFF_FFFF`, whose low 16 bits are `0xFFFF ≠ 1`.  So
`recover_frame_counter` does not return "the smallest full 32-bit counter
`≥ next` whose low 16 bits equal `lsbs`" at this input, refuting the claim as
universally stated. -/
theorem c3_recover_smallest_counterexample :
    recoverFrameCounter 1 4294901765 = 4294967295 ∧
    recoverFrameCounter 1 4294901765 % 65536 ≠ 1 := by
  constructor
  · decide
  · decide

/-- C3 (amended): whenever some 32-bit counter `≥ next` with low 16 bits
`lsbs` exists (always, except when `next`'s high half is `0xFFFF` and
`lsbs < next % 2^16`), `recover_frame_counter` returns the smallest such
counter; in the remaining corner it returns the reserved `0xFFFF_FFFF`,
which the open pipeline rejects. -/
theorem c3_recover_frame_counter (lsbs next : Nat) (hl : lsbs < 65536)
    (hn : next < 4294967296) :
    ((next / 65536 < 65535 ∨ next % 65536 ≤ lsbs) →
      next ≤ recoverFrameCounter lsbs next ∧
      recoverFrameCounter lsbs next % 65536 = lsbs ∧
      recoverFrameCounter lsbs next < 4294967296 ∧
      ∀ c, next ≤ c → c % 65536 = lsbs → recoverFrameCounter lsbs next ≤ c) ∧
    (next / 65536 = 65535 ∧ lsbs < next % 65536 →
      recoverFrameCounter lsbs next = 4294967295) := by
  rw [recover_eq lsbs next hl hn]
  constructor
  · intro hex
    refine ⟨by split_ifs with hc <;> omega, by split_ifs with hc <;> omega,
      by split_ifs with hc <;> omega, ?_⟩
    intro c hc1 hc2
    split_ifs with hc <;> omega
  · intro hcorner
    split_ifs with hc <;> omega

/-- C3 witness: a concrete in-window recovery. -/
theorem c3_recover_frame_counter_witness :
    70000 ≤ recoverFrameCounter 5 70000 ∧ recoverFrameCounter 5 70000 % 65536 = 5 :=
  ⟨((c3_recover_frame_counter 5 70000 (by decide) (by decide)).1 (by decide)).1,
   ((c3_recover_frame_counter 5 70000 (by decide) (by decide)).1 (by decide)).2.1⟩

/-! ## Claim C6: open leaves the session unchanged on failure -/

/-- C6: whenever `open` fails — unparseable bytes, address mismatch,
reserved recovered counter, or MIC mismatch — the session (in particular
both frame counters) is returned exactly as it was. -/
theorem c6_open_atomic (aes cmac : List Nat → List Nat → List Nat) (s : Session)
    (d : Direction) (frame : List Nat)
    (hfail : (openFrame aes cmac s d frame).1 = none) :
    (openFrame aes cmac s d frame).2 = s := by
  rcases openFrame_spec aes cmac s d frame with h | ⟨raw, pt, -, -, -, -, -, heq⟩
  · rw [h]
  · rw [heq] at hfail
    simp at hfail

/-- C6 witness: opening an empty byte sequence fails and keeps the session. -/
theorem c6_open_atomic_witness :
    (openFrame tAes tCmac (testSession 0) Direction.Uplink []).1 = none ∧
    (openFrame tAes tCmac (testSession 0) Direction.Uplink []).2 = testSession 0 :=
  ⟨by decide, c6_open_atomic tAes tCmac (testSession 0) Direction.Uplink [] (by decide)⟩

/-! ## Claim C7: MIC computation -/

/-- C7: for the primary (default-feature) MIC engine `AesCmacBuilder::compute`,
the MIC of a message with `len(header) + len(payload) ≤ 255` is the first 4
bytes of the 16-byte AES-CMAC under `nwkskey` over `B0 || header || payload`,
where `B0` is `0x49`, four zero bytes, the direction octet, the little-endian
device address, the little-endian frame counter, `0x00`, and the total length
octet. -/
theorem c7_mic_compute (cmac : List Nat → List Nat → List Nat) (nwkskey : List Nat)
    (d : Direction) (address fc : Nat) (header payload : List Nat)
    (hh : header.length = 8) (hlen : header.length + payload.length ≤ 255) :
    AesCmacBuilder.compute cmac nwkskey d address fc header payload =
      some ((cmac nwkskey
        (([0x49, 0x00, 0x00, 0x00, 0x00, d.toByte,
           address % 256, address / 256 % 256, address / 65536 % 256, address / 16777216 % 256,
           fc % 256, fc / 256 % 256, fc / 65536 % 256, fc / 16777216 % 256,
           0x00, header.length + payload.length] : List Nat)
          ++ header ++ payload)).take 4) := by
  simp [AesCmacBuilder.compute, hlen, micMessage, micBlock0, toLe4]

/-- C7 witness: concrete instantiation of the MIC computation shape. -/
theorem c7_mic_compute_witness :
    (List.replicate 8 0 : List Nat).length = 8 ∧
    AesCmacBuilder.compute tCmac zeroKey Direction.Uplink 0 0 (List.replicate 8 0) [] =
      some ((tCmac zeroKey
        (([0x49, 0x00, 0x00, 0x00, 0x00, Direction.Uplink.toByte,
           0 % 256, 0 / 256 % 256, 0 / 65536 % 256, 0 / 16777216 % 256,
           0 % 256, 0 / 256 % 256, 0 / 65536 % 256, 0 / 16777216 % 256,
           0x00, (List.replicate 8 0 : List Nat).length + ([] : List Nat).length] : List Nat)
          ++ List.replicate 8 0 ++ [])).take 4) :=
  ⟨by decide, c7_mic_compute tCmac zeroKey Direction.Uplink 0 0 (List.replicate 8 0) []
    (by decide) (by decide)⟩

/-! ## Claim C8: parse acceptance -/

/-- C8 counterexample: a 12-byte sequence with the fixed bytes `0xE0` at
offset 0 and `0x01` at offset 7 satisfies every condition of the claim
(length ≥ 12, valid fixed bytes, payload-between-header-and-4-byte-MIC within
bounds), yet `parse` rejects it: this iteration of the codec requires at
least `8 + 8 = 16` bytes because its MIC is 8 bytes wide. -/
theorem c8_parse_counterexample :
    RawFrame.parse [0xE0, 0, 0, 0, 0, 0, 0, 0x01, 0, 0, 0, 0] = none ∧
    ([0xE0, 0, 0, 0, 0, 0, 0, 0x01, 0, 0, 0, 0] : List Nat).length ≥ 12 ∧
    ([0xE0, 0, 0, 0, 0, 0, 0, 0x01, 0, 0, 0, 0] : List Nat).getD 0 0 = 0xE0 ∧
    ([0xE0, 0, 0, 0, 0, 0, 0, 0x01, 0, 0, 0, 0] : List Nat).getD 7 0 = 0x01 ∧
    ([0xE0, 0, 0, 0, 0, 0, 0, 0x01, 0, 0, 0, 0] : List Nat).length - 12 ≤ MAX_PAYLOAD_SIZE := by
  decide

/-- C8 (amended): `parse` succeeds iff the input is at least 16 bytes long
(8-byte header + 8-byte MIC), byte 0 is `0b111_000_00`, byte 7 is `0x01`, and
the payload part between the 8-byte header and the trailing 8-byte MIC is at
most `MAX_PAYLOAD_SIZE` bytes. -/
theorem c8_parse_acceptance (frame : List Nat) :
    (RawFrame.parse frame).isSome = true ↔
      (16 ≤ frame.length ∧ frame.getD 0 0 = 0xE0 ∧ frame.getD 7 0 = 0x01 ∧
       frame.length - 16 ≤ MAX_PAYLOAD_SIZE) := by
  constructor
  · intro h
    obtain ⟨raw, hp⟩ := Option.isSome_iff_exists.mp h
    obtain ⟨-, -, -, hlen, hple, hchk⟩ := parse_shape frame raw hp
    simp only [RawFrame.checkHeader, MHDR, FPORT, Bool.and_eq_true, beq_iff_eq] at hchk
    refine ⟨hlen, ?_, ?_, ?_⟩
    · rw [← getD_take_lt frame 8 0 (by norm_num)]
      exact hchk.1
    · rw [← getD_take_lt frame 8 7 (by norm_num)]
      exact hchk.2
    · simp only [MAX_PAYLOAD_SIZE, MAX_MESSAGE_SIZE, HEADER_SIZE, MIC_SIZE]
      omega
  · rintro ⟨h1, h2, h3, h4⟩
    have hchk : RawFrame.checkHeader (frame.take 8) = true := by
      simp only [RawFrame.checkHeader, MHDR, FPORT, Bool.and_eq_true, beq_iff_eq,
        getD_take_lt frame 8 0 (by norm_num), getD_take_lt frame 8 7 (by norm_num)]
      exact ⟨h2, h3⟩
    simp only [MAX_PAYLOAD_SIZE, MAX_MESSAGE_SIZE, HEADER_SIZE, MIC_SIZE] at h4
    simp only [RawFrame.parse, HEADER_SIZE, MIC_SIZE, MAX_PAYLOAD_SIZE, MAX_MESSAGE_SIZE]
    rw [if_pos (by omega), if_pos hchk, if_pos (by omega)]
    rfl

/-! ## Claim C10: seal on an exhausted session -/

/-- C10: with `frame_counter[direction] = 0xFFFF_FFFF` and a valid-length
plaintext, the seal pipeline's payload encryption and MIC computation both
succeed — the exhaustion is only detected afterwards, at the
`checked_add(1)` of the counter — yet the whole seal fails and the session is
returned unchanged, `set_frame_counter` never being reached. -/
theorem c10_seal_exhausted_after_crypto (aes cmac : List Nat → List Nat → List Nat)
    (s : Session) (d : Direction) (pl : List Nat)
    (hM : s.frameCounter d = RESERVED_FRAME_COUNTER) (hpl : pl.length ≤ MAX_PAYLOAD_SIZE) :
    sealFrame aes cmac s d pl = (none, s) ∧
    CipherstreamBuilder.apply aes s.appskey d s.deviceAddress (s.frameCounter d) pl =
      some (sealedCiphertext aes s.appskey d s.deviceAddress (s.frameCounter d) pl) ∧
    MicBuilder.compute cmac s.nwkskey d s.deviceAddress (s.frameCounter d)
      (sealedHeader s.deviceAddress (s.frameCounter d))
      (sealedCiphertext aes s.appskey d s.deviceAddress (s.frameCounter d) pl) =
      some (sealedMic cmac s.nwkskey d s.deviceAddress (s.frameCounter d)
        (sealedHeader s.deviceAddress (s.frameCounter d))
        (sealedCiphertext aes s.appskey d s.deviceAddress (s.frameCounter d) pl)) ∧
    checkedAddOne (s.frameCounter d) = none := by
  have hpl239 : pl.length ≤ 239 := by
    simpa [MAX_PAYLOAD_SIZE, MAX_MESSAGE_SIZE, HEADER_SIZE, MIC_SIZE] using hpl
  have hct := sealedCiphertext_le aes s.appskey d s.deviceAddress (s.frameCounter d) pl
  have h3 := apply_eq_of_le aes s.appskey d s.deviceAddress (s.frameCounter d) pl (by omega)
  have h4 := compute_eq_of_le cmac s.nwkskey d s.deviceAddress (s.frameCounter d)
    (sealedHeader s.deviceAddress (s.frameCounter d))
    (sealedCiphertext aes s.appskey d s.deviceAddress (s.frameCounter d) pl)
    (by rw [sealedHeader_length]; omega)
  have h5 : checkedAddOne (s.frameCounter d) = none := by
    simp [checkedAddOne, hM]
  have h1 : RawFrame.new pl =
      some ⟨[MHDR, 0, 0, 0, 0, 0, 0, FPORT], pl, List.replicate MIC_SIZE 0⟩ := by
    simp [RawFrame.new, hpl]
  have h2 : RawFrame.setFrameCounterLsbs
      (RawFrame.setAddress ⟨[MHDR, 0, 0, 0, 0, 0, 0, FPORT], pl, List.replicate MIC_SIZE 0⟩
        s.deviceAddress) (s.frameCounter d % 65536) =
      ⟨sealedHeader s.deviceAddress (s.frameCounter d), pl, List.replicate MIC_SIZE 0⟩ := by
    simp [RawFrame.setAddress, RawFrame.setFrameCounterLsbs, sealedHeader, toLe4, toLe2]
  refine ⟨?_, h3, h4, h5⟩
  simp only [sealFrame, h1, h2, h3, h4, h5]

/-- C10 witness: a concrete exhausted-uplink session. -/
theorem c10_seal_exhausted_witness :
    sealFrame tAes tCmac (testSession 4294967295) Direction.Uplink [7] =
      (none, testSession 4294967295) ∧
    checkedAddOne ((testSession 4294967295).frameCounter Direction.Uplink) = none := by
  have h := c10_seal_exhausted_after_crypto tAes tCmac (testSession 4294967295)
    Direction.Uplink [7] (by decide) (by decide)
  exact ⟨h.1, h.2.2.2⟩

/-! ## Claim C1: round trip -/

/-- Decryption of a sealed ciphertext with the matching context recovers the
plaintext: the CTR transform is a self-inverse XOR. -/
theorem decrypt_sealedCiphertext (aes : List Nat → List Nat → List Nat)
    (appskey : List Nat) (d : Direction) (address fc : Nat) (pl : List Nat)
    (hAes : ∀ k b, b.length = 16 → (aes k b).length = 16) :
    sealedCiphertext aes appskey d address fc
      (sealedCiphertext aes appskey d address fc pl) = pl := by
  have hct := sealedCiphertext_length aes appskey d address fc pl hAes
  have hks := ctrKeystream_length aes appskey hAes
    (beNat (ctrBlock0 d address fc)) ((pl.length + 15) / 16)
  unfold sealedCiphertext at hct ⊢
  rw [hct]
  exact zipWith_xor_cancel pl _ (by omega)

/-- C1: sealing a valid-length plaintext under a non-exhausted counter and
opening the resulting bytes with a session holding the same keys, the same
device address and the matching counter state yields exactly the original
plaintext. -/
theorem c1_roundtrip (aes cmac : List Nat → List Nat → List Nat)
    (hAes : ∀ k b, b.length = 16 → (aes k b).length = 16)
    (hCmac : ∀ k m, (cmac k m).length = 16)
    (s1 s2 : Session) (d : Direction) (pl bytes : List Nat) (s1' : Session)
    (haddr : s1.deviceAddress < 4294967296)
    (hpl : pl.length ≤ MAX_PAYLOAD_SIZE)
    (hfc : s1.frameCounter d < RESERVED_FRAME_COUNTER)
    (hkN : s2.nwkskey = s1.nwkskey) (hkA : s2.appskey = s1.appskey)
    (hda : s2.deviceAddress = s1.deviceAddress)
    (hc : s2.frameCounter d = s1.frameCounter d)
    (hseal : sealFrame aes cmac s1 d pl = (some bytes, s1')) :
    (openFrame aes cmac s2 d bytes).1 = some pl := by
  have hpl239 : pl.length ≤ 239 := by
    simpa [MAX_PAYLOAD_SIZE, MAX_MESSAGE_SIZE, HEADER_SIZE, MIC_SIZE] using hpl
  have hfc32 : s1.frameCounter d < 4294967296 := by
    simp only [RESERVED_FRAME_COUNTER] at hfc
    omega
  have hbytes : bytes =
      sealedHeader s1.deviceAddress (s1.frameCounter d)
        ++ sealedCiphertext aes s1.appskey d s1.deviceAddress (s1.frameCounter d) pl
        ++ sealedMic cmac s1.nwkskey d s1.deviceAddress (s1.frameCounter d)
             (sealedHeader s1.deviceAddress (s1.frameCounter d))
             (sealedCiphertext aes s1.appskey d s1.deviceAddress (s1.frameCounter d) pl) := by
    have heq := (sealFrame_eq aes cmac s1 d pl hpl hfc).symm.trans hseal
    exact (Option.some.inj (congrArg Prod.fst heq)).symm
  have hct_len : (sealedCiphertext aes s1.appskey d s1.deviceAddress
      (s1.frameCounter d) pl).length = pl.length :=
    sealedCiphertext_length aes s1.appskey d s1.deviceAddress (s1.frameCounter d) pl hAes
  have hmic_len : (sealedMic cmac s1.nwkskey d s1.deviceAddress (s1.frameCounter d)
      (sealedHeader s1.deviceAddress (s1.frameCounter d))
      (sealedCiphertext aes s1.appskey d s1.deviceAddress (s1.frameCounter d) pl)).length = 8 :=
    sealedMic_length cmac s1.nwkskey d s1.deviceAddress (s1.frameCounter d) _ _ hCmac
  have hparse : RawFrame.parse bytes = some
      ⟨sealedHeader s1.deviceAddress (s1.frameCounter d),
       sealedCiphertext aes s1.appskey d s1.deviceAddress (s1.frameCounter d) pl,
       sealedMic cmac s1.nwkskey d s1.deviceAddress (s1.frameCounter d)
         (sealedHeader s1.deviceAddress (s1.frameCounter d))
         (sealedCiphertext aes s1.appskey d s1.deviceAddress (s1.frameCounter d) pl)⟩ := by
    rw [hbytes]
    exact parse_intoFrame _ _ _
      (sealedHeader_length s1.deviceAddress (s1.frameCounter d)) hmic_len (by omega)
      (checkHeader_sealedHeader s1.deviceAddress (s1.frameCounter d))
  have haddr_eq : RawFrame.address
      ⟨sealedHeader s1.deviceAddress (s1.frameCounter d),
       sealedCiphertext aes s1.appskey d s1.deviceAddress (s1.frameCounter d) pl,
       sealedMic cmac s1.nwkskey d s1.deviceAddress (s1.frameCounter d)
         (sealedHeader s1.deviceAddress (s1.frameCounter d))
         (sealedCiphertext aes s1.appskey d s1.deviceAddress (s1.frameCounter d) pl)⟩ =
      s1.deviceAddress := by
    simp only [RawFrame.address, sealedHeader, toLe4, toLe2, List.cons_append,
      List.nil_append, fromLe, List.foldr]
    omega
  have hlsbs_eq : RawFrame.frameCounterLsbs
      ⟨sealedHeader s1.deviceAddress (s1.frameCounter d),
       sealedCiphertext aes s1.appskey d s1.deviceAddress (s1.frameCounter d) pl,
       sealedMic cmac s1.nwkskey d s1.deviceAddress (s1.frameCounter d)
         (sealedHeader s1.deviceAddress (s1.frameCounter d))
         (sealedCiphertext aes s1.appskey d s1.deviceAddress (s1.frameCounter d) pl)⟩ =
      s1.frameCounter d % 65536 := by
    simp only [RawFrame.frameCounterLsbs, sealedHeader, toLe4, toLe2, List.cons_append,
      List.nil_append, fromLe, List.foldr]
    omega
  have hrec : recoverFrameCounter (s1.frameCounter d % 65536) (s1.frameCounter d) =
      s1.frameCounter d := recover_self (s1.frameCounter d) hfc32
  have hver : MicBuilder.verify cmac s1.nwkskey d s1.deviceAddress (s1.frameCounter d)
      (sealedHeader s1.deviceAddress (s1.frameCounter d))
      (sealedCiphertext aes s1.appskey d s1.deviceAddress (s1.frameCounter d) pl)
      (sealedMic cmac s1.nwkskey d s1.deviceAddress (s1.frameCounter d)
        (sealedHeader s1.deviceAddress (s1.frameCounter d))
        (sealedCiphertext aes s1.appskey d s1.deviceAddress (s1.frameCounter d) pl)) = true := by
    unfold MicBuilder.verify
    rw [if_pos (by rw [sealedHeader_length]; omega)]
    simp [sealedMic]
  have hdec : CipherstreamBuilder.apply aes s1.appskey d s1.deviceAddress (s1.frameCounter d)
      (sealedCiphertext aes s1.appskey d s1.deviceAddress (s1.frameCounter d) pl) =
      some pl := by
    rw [apply_eq_of_le aes s1.appskey d s1.deviceAddress (s1.frameCounter d) _ (by omega),
      decrypt_sealedCiphertext aes s1.appskey d s1.deviceAddress (s1.frameCounter d) pl hAes]
  have hne : s1.frameCounter d ≠ RESERVED_FRAME_COUNTER := Nat.ne_of_lt hfc
  simp only [openFrame, hparse]
  rw [haddr_eq, hda, hlsbs_eq, hc, hrec, hkN, hkA]
  simp [hne, hver, hdec]

/-- C1 witness: a concrete round trip with the toy AES/CMAC capabilities. -/
theorem c1_roundtrip_witness :
    (openFrame tAes tCmac (testSession 0) Direction.Uplink
      ((sealFrame tAes tCmac (testSession 0) Direction.Uplink [116, 101]).1.getD [])).1 =
      some [116, 101] := by
  have hseal : sealFrame tAes tCmac (testSession 0) Direction.Uplink [116, 101] =
      ((sealFrame tAes tCmac (testSession 0) Direction.Uplink [116, 101]).1,
       (sealFrame tAes tCmac (testSession 0) Direction.Uplink [116, 101]).2) := rfl
  have h := c1_roundtrip tAes tCmac (fun _ _ h => h) (fun _ m => by simp [tCmac])
    (testSession 0) (testSession 0) Direction.Uplink [116, 101]
    ((sealFrame tAes tCmac (testSession 0) Direction.Uplink [116, 101]).1.getD [])
    (sealFrame tAes tCmac (testSession 0) Direction.Uplink [116, 101]).2
    (by decide) (by decide) (by decide) rfl rfl rfl rfl ?_
  · exact h
  · rw [hseal]
    decide

/-! ## Claim C2: replay rejection -/

/-- C2: a frame sealed with counter `c` in direction `d`, presented to a
session (same key material and address) whose `frame_counter[d]` has advanced
strictly past `c`, is recovered to a counter that is at least the expected
next value — hence different from `c` — and, under the assumption that the
CMAC tag under that wrong counter does not collide with the frame's MIC
(`hmic`), the open fails with the session unchanged.  There is no direct
counter comparison: rejection flows through `hmic` (or, in the saturated
corner, through the reserved-counter check). -/
theorem c2_replay_rejected (aes cmac : List Nat → List Nat → List Nat)
    (hAes : ∀ k b, b.length = 16 → (aes k b).length = 16)
    (hCmac : ∀ k m, (cmac k m).length = 16)
    (s1 s2 : Session) (d : Direction) (pl bytes : List Nat) (s1' : Session)
    (hpl : pl.length ≤ MAX_PAYLOAD_SIZE)
    (hadv : s1.frameCounter d < s2.frameCounter d)
    (hn32 : s2.frameCounter d < 4294967296)
    (hseal : sealFrame aes cmac s1 d pl = (some bytes, s1'))
    (hmic : ∀ raw : RawFrame, RawFrame.parse bytes = some raw →
      MicBuilder.verify cmac s2.nwkskey d raw.address
        (recoverFrameCounter raw.frameCounterLsbs (s2.frameCounter d))
        raw.header raw.payload raw.mic = false) :
    s2.frameCounter d ≤
      recoverFrameCounter (s1.frameCounter d % 65536) (s2.frameCounter d) ∧
    recoverFrameCounter (s1.frameCounter d % 65536) (s2.frameCounter d) ≠
      s1.frameCounter d ∧
    (∃ raw, RawFrame.parse bytes = some raw ∧
      raw.frameCounterLsbs = s1.frameCounter d % 65536) ∧
    openFrame aes cmac s2 d bytes = (none, s2) := by
  have hge := recover_ge (s1.frameCounter d % 65536) (s2.frameCounter d)
    (by omega) hn32
  have hfc : s1.frameCounter d < RESERVED_FRAME_COUNTER := by
    simp only [RESERVED_FRAME_COUNTER]
    omega
  have hpl239 : pl.length ≤ 239 := by
    simpa [MAX_PAYLOAD_SIZE, MAX_MESSAGE_SIZE, HEADER_SIZE, MIC_SIZE] using hpl
  have hbytes : bytes =
      sealedHeader s1.deviceAddress (s1.frameCounter d)
        ++ sealedCiphertext aes s1.appskey d s1.deviceAddress (s1.frameCounter d) pl
        ++ sealedMic cmac s1.nwkskey d s1.deviceAddress (s1.frameCounter d)
             (sealedHeader s1.deviceAddress (s1.frameCounter d))
             (sealedCiphertext aes s1.appskey d s1.deviceAddress (s1.frameCounter d) pl) := by
    have heq := (sealFrame_eq aes cmac s1 d pl hpl hfc).symm.trans hseal
    exact (Option.some.inj (congrArg Prod.fst heq)).symm
  have hct_len : (sealedCiphertext aes s1.appskey d s1.deviceAddress
      (s1.frameCounter d) pl).length = pl.length :=
    sealedCiphertext_length aes s1.appskey d s1.deviceAddress (s1.frameCounter d) pl hAes
  have hmic_len : (sealedMic cmac s1.nwkskey d s1.deviceAddress (s1.frameCounter d)
      (sealedHeader s1.deviceAddress (s1.frameCounter d))
      (sealedCiphertext aes s1.appskey d s1.deviceAddress (s1.frameCounter d) pl)).length = 8 :=
    sealedMic_length cmac s1.nwkskey d s1.deviceAddress (s1.frameCounter d) _ _ hCmac
  have hparse : RawFrame.parse bytes = some
      ⟨sealedHeader s1.deviceAddress (s1.frameCounter d),
       sealedCiphertext aes s1.appskey d s1.deviceAddress (s1.frameCounter d) pl,
       sealedMic cmac s1.nwkskey d s1.deviceAddress (s1.frameCounter d)
         (sealedHeader s1.deviceAddress (s1.frameCounter d))
         (sealedCiphertext aes s1.appskey d s1.deviceAddress (s1.frameCounter d) pl)⟩ := by
    rw [hbytes]
    exact parse_intoFrame _ _ _
      (sealedHeader_length s1.deviceAddress (s1.frameCounter d)) hmic_len (by omega)
      (checkHeader_sealedHeader s1.deviceAddress (s1.frameCounter d))
  have hlsbs_eq : RawFrame.frameCounterLsbs
      ⟨sealedHeader s1.deviceAddress (s1.frameCounter d),
       sealedCiphertext aes s1.appskey d s1.deviceAddress (s1.frameCounter d) pl,
       sealedMic cmac s1.nwkskey d s1.deviceAddress (s1.frameCounter d)
         (sealedHeader s1.deviceAddress (s1.frameCounter d))
         (sealedCiphertext aes s1.appskey d s1.deviceAddress (s1.frameCounter d) pl)⟩ =
      s1.frameCounter d % 65536 := by
    simp only [RawFrame.frameCounterLsbs, sealedHeader, toLe4, toLe2, List.cons_append,
      List.nil_append, fromLe, List.foldr]
    omega
  refine ⟨hge, by omega, ⟨_, hparse, hlsbs_eq⟩, ?_⟩
  rcases openFrame_spec aes cmac s2 d bytes with h | ⟨raw, pt, hp, ha, hres, hv, hap, heq⟩
  · exact h
  · exfalso
    have hfalse := hmic raw hp
    rw [hfalse] at hv
    cases hv

/-- C2 witness: a concrete replayed frame (sealed at counter 0, session
advanced to 1) is rejected with the session unchanged. -/
theorem c2_replay_rejected_witness :
    (testSession 1).frameCounter Direction.Uplink ≤
      recoverFrameCounter ((testSession 0).frameCounter Direction.Uplink % 65536)
        ((testSession 1).frameCounter Direction.Uplink) ∧
    recoverFrameCounter ((testSession 0).frameCounter Direction.Uplink % 65536)
      ((testSession 1).frameCounter Direction.Uplink) ≠
      (testSession 0).frameCounter Direction.Uplink ∧
    openFrame tAes tCmac (testSession 1) Direction.Uplink
      ((sealFrame tAes tCmac (testSession 0) Direction.Uplink [42]).1.getD []) =
      (none, testSession 1) := by
  have h := c2_replay_rejected tAes tCmac (fun _ _ h => h)
    (fun _ m => by simp [tCmac])
    (testSession 0) (testSession 1) Direction.Uplink [42]
    ((sealFrame tAes tCmac (testSession 0) Direction.Uplink [42]).1.getD [])
    ((sealFrame tAes tCmac (testSession 0) Direction.Uplink [42]).2)
    (by decide) (by decide) (by decide) (by decide) ?_
  · exact ⟨h.1, h.2.1, h.2.2.2⟩
  intro raw hp
  have hval : raw = (RawFrame.parse
      ((sealFrame tAes tCmac (testSession 0) Direction.Uplink [42]).1.getD [])).getD
      ⟨[], [], []⟩ := by
    rw [hp]
    rfl
  rw [hval]
  decide

/-! ## Claims C4 and C5: counter life cycle -/

/-- The direction-indexed counter update reads back what was written. -/
theorem frameCounter_setFrameCounter (s : Session) (c : Nat) (d : Direction) :
    (s.setFrameCounter c d).frameCounter d = c := by
  cases d <;> rfl

/-- Recovery against an exhausted expected counter always yields the
reserved value. -/
theorem recover_at_max (lsbs : Nat) (hl : lsbs < 65536) :
    recoverFrameCounter lsbs 4294967295 = 4294967295 := by
  rw [recover_eq lsbs 4294967295 hl (by norm_num)]
  split_ifs <;> omega

/-- `set_payload` either leaves the session untouched and fails, or succeeds
having advanced the non-exhausted counter by one. -/
theorem sealFrame_spec (aes cmac : List Nat → List Nat → List Nat) (s : Session)
    (d : Direction) (pl : List Nat) :
    sealFrame aes cmac s d pl = (none, s) ∨
    (s.frameCounter d < RESERVED_FRAME_COUNTER ∧
     (sealFrame aes cmac s d pl).2 = s.setFrameCounter (s.frameCounter d + 1) d) := by
  rcases hnew : RawFrame.new pl with _ | raw0
  · left
    simp [sealFrame, hnew]
  · rcases hap : CipherstreamBuilder.apply aes s.appskey d s.deviceAddress
        (s.frameCounter d)
        ((raw0.setAddress s.deviceAddress).setFrameCounterLsbs
          (s.frameCounter d % 65536)).payload with _ | ct
    · left
      simp [sealFrame, hnew, hap]
    · rcases hcm : MicBuilder.compute cmac s.nwkskey d s.deviceAddress (s.frameCounter d)
          { (raw0.setAddress s.deviceAddress).setFrameCounterLsbs
              (s.frameCounter d % 65536) with payload := ct }.header ct with _ | mic
      · left
        simp [sealFrame, hnew, hap, hcm]
      · by_cases hfc : s.frameCounter d < RESERVED_FRAME_COUNTER
        · right
          refine ⟨hfc, ?_⟩
          have hca : checkedAddOne (s.frameCounter d) = some (s.frameCounter d + 1) := by
            simp [checkedAddOne, hfc]
          simp [sealFrame, hnew, hap, hcm, hca]
        · left
          have hca : checkedAddOne (s.frameCounter d) = none := by
            simp [checkedAddOne, hfc]
          simp [sealFrame, hnew, hap, hcm, hca]

/-- C4: exhaustion is terminal.  (i) With `frame_counter[d] = 0xFFFF_FFFF`
both seal and open fail in direction `d` and leave the session unchanged
(so no later operation can succeed either).  (ii) A successful seal leaves
the counter at `0xFFFF_FFFF` exactly when the message just processed used
counter `0xFFFF_FFFE`; likewise (iii) for a successful open with the
recovered counter. -/
theorem c4_exhaustion_terminal (aes cmac : List Nat → List Nat → List Nat)
    (s : Session) (d : Direction) (pl frame : List Nat)
    (hwf : s.frameCounter d ≤ RESERVED_FRAME_COUNTER)
    (hbytes : ∀ b ∈ frame, b < 256) :
    (s.frameCounter d = RESERVED_FRAME_COUNTER →
      sealFrame aes cmac s d pl = (none, s) ∧
      openFrame aes cmac s d frame = (none, s)) ∧
    (∀ out s', sealFrame aes cmac s d pl = (some out, s') →
      (s'.frameCounter d = RESERVED_FRAME_COUNTER ↔
        s.frameCounter d = RESERVED_FRAME_COUNTER - 1)) ∧
    (∀ out s', openFrame aes cmac s d frame = (some out, s') →
      ∃ raw, RawFrame.parse frame = some raw ∧
        (s'.frameCounter d = RESERVED_FRAME_COUNTER ↔
          recoverFrameCounter raw.frameCounterLsbs (s.frameCounter d) =
            RESERVED_FRAME_COUNTER - 1)) := by
  refine ⟨?_, ?_, ?_⟩
  · intro hM
    constructor
    · rcases sealFrame_spec aes cmac s d pl with h | ⟨hfc, -⟩
      · exact h
      · rw [hM] at hfc
        omega
    · rcases openFrame_spec aes cmac s d frame with h | ⟨raw, pt, hp, -, hres, -, -, -⟩
      · exact h
      · exfalso
        have hl := frameCounterLsbs_lt frame raw hp hbytes
        rw [hM] at hres
        exact hres (recover_at_max raw.frameCounterLsbs hl)
  · intro out s' hs
    rcases sealFrame_spec aes cmac s d pl with h | ⟨hfc, hs2⟩
    · rw [h] at hs
      cases hs
    · rw [hs] at hs2
      have hs' : s' = s.setFrameCounter (s.frameCounter d + 1) d := hs2
      rw [hs', frameCounter_setFrameCounter]
      simp only [RESERVED_FRAME_COUNTER] at hfc ⊢
      omega
  · intro out s' ho
    rcases openFrame_spec aes cmac s d frame with h | ⟨raw, pt, hp, -, hres, -, -, heq⟩
    · rw [h] at ho
      cases ho
    · refine ⟨raw, hp, ?_⟩
      rw [heq] at ho
      have hs' : s' = s.setFrameCounter
          (saturatingAdd (recoverFrameCounter raw.frameCounterLsbs (s.frameCounter d)) 1) d :=
        (congrArg Prod.snd ho).symm
      have hl := frameCounterLsbs_lt frame raw hp hbytes
      have hle := recover_le_max raw.frameCounterLsbs (s.frameCounter d) hl
        (by simp only [RESERVED_FRAME_COUNTER] at hwf; omega)
      rw [hs', frameCounter_setFrameCounter]
      unfold saturatingAdd
      simp only [RESERVED_FRAME_COUNTER] at hres hle ⊢
      omega

/-- C4 witness: a concretely exhausted uplink session refuses both
operations without touching its state. -/
theorem c4_exhaustion_terminal_witness :
    sealFrame tAes tCmac (testSession 4294967295) Direction.Uplink [1, 2] =
      (none, testSession 4294967295) ∧
    openFrame tAes tCmac (testSession 4294967295) Direction.Uplink [3, 4] =
      (none, testSession 4294967295) :=
  (c4_exhaustion_terminal tAes tCmac (testSession 4294967295) Direction.Uplink [1, 2] [3, 4]
    (by decide) (by decide)).1 rfl

/-- C5 counterexample: the claim "every successful open advances the counter
by exactly 1" fails.  A frame sealed at counter 1 opens successfully against
a session expecting counter 0 (the 16-bit window admits it), and the
post-state counter is 2, an advance of 2. -/
theorem c5_advance_counterexample :
    (openFrame tAes tCmac (testSession 0) Direction.Uplink
      ((sealFrame tAes tCmac (testSession 1) Direction.Uplink []).1.getD [])).1.isSome = true ∧
    (openFrame tAes tCmac (testSession 0) Direction.Uplink
      ((sealFrame tAes tCmac (testSession 1) Direction.Uplink []).1.getD [])).2.fcntUp ≠
      (testSession 0).fcntUp + 1 := by
  decide

/-- C5 (amended): a successful seal advances `frame_counter[d]` by exactly 1;
a successful open sets it to `recovered + 1`, which strictly exceeds the
pre-state value but may exceed it by more than 1 when the frame was sealed
ahead of the expected next counter. -/
theorem c5_counter_advance (aes cmac : List Nat → List Nat → List Nat)
    (s : Session) (d : Direction) (pl frame : List Nat)
    (hwf : s.frameCounter d ≤ RESERVED_FRAME_COUNTER)
    (hbytes : ∀ b ∈ frame, b < 256) :
    (∀ out s', sealFrame aes cmac s d pl = (some out, s') →
      s'.frameCounter d = s.frameCounter d + 1) ∧
    (∀ out s', openFrame aes cmac s d frame = (some out, s') →
      ∃ raw, RawFrame.parse frame = some raw ∧
        s'.frameCounter d =
          recoverFrameCounter raw.frameCounterLsbs (s.frameCounter d) + 1 ∧
        s.frameCounter d < s'.frameCounter d) := by
  constructor
  · intro out s' hs
    rcases sealFrame_spec aes cmac s d pl with h | ⟨hfc, hs2⟩
    · rw [h] at hs
      cases hs
    · rw [hs] at hs2
      have hs' : s' = s.setFrameCounter (s.frameCounter d + 1) d := hs2
      rw [hs', frameCounter_setFrameCounter]
  · intro out s' ho
    rcases openFrame_spec aes cmac s d frame with h | ⟨raw, pt, hp, -, hres, -, -, heq⟩
    · rw [h] at ho
      cases ho
    · refine ⟨raw, hp, ?_⟩
      rw [heq] at ho
      have hs' : s' = s.setFrameCounter
          (saturatingAdd (recoverFrameCounter raw.frameCounterLsbs (s.frameCounter d)) 1) d :=
        (congrArg Prod.snd ho).symm
      have hl := frameCounterLsbs_lt frame raw hp hbytes
      have hn32 : s.frameCounter d < 4294967296 := by
        simp only [RESERVED_FRAME_COUNTER] at hwf
        omega
      have hle := recover_le_max raw.frameCounterLsbs (s.frameCounter d) hl hn32
      have hge := recover_ge raw.frameCounterLsbs (s.frameCounter d) hl hn32
      rw [hs', frameCounter_setFrameCounter]
      unfold saturatingAdd
      simp only [RESERVED_FRAME_COUNTER] at hres hle ⊢
      omega

/-- C5 witness: a concrete successful seal advances the uplink counter from 0
to 1. -/
theorem c5_counter_advance_witness :
    ((sealFrame tAes tCmac (testSession 0) Direction.Uplink [9]).2).frameCounter
      Direction.Uplink = (testSession 0).frameCounter Direction.Uplink + 1 :=
  (c5_counter_advance tAes tCmac (testSession 0) Direction.Uplink [9] []
    (by decide) (by simp)).1
    ((sealFrame tAes tCmac (testSession 0) Direction.Uplink [9]).1.getD [])
    ((sealFrame tAes tCmac (testSession 0) Direction.Uplink [9]).2)
    (by decide)

end Loreyawen
